import Mathlib

/-!
Verification of the hnefatafl MCTS engine (7×7 Copenhagen variant).

Shallow embedding of `src/zobrist.rs`, `src/hnefatafl.rs`,
`src/transposition.rs` and `src/mcts.rs`.

Machine integers are modelled as `Nat` (all hash arithmetic is XOR /
masking, which never overflows); `u128` bit fields carry explicit
`% 2 ^ 128` wrapping where the Rust wraps.  The board `[[char; 7]; 7]`
is modelled as a total function `Nat → Nat → Char`; every access the
Rust performs is bounds-checked first, exactly as in the source, so the
values outside the 7×7 range are never consulted.  The Zobrist table is
a parameter (the Rust fills it from `StdRng`; its contents are
otherwise arbitrary 64-bit constants).
-/

/-- `zobrist.rs`: table of 64-bit constants keyed by (row, col, piece)
plus the black-to-move constant. -/
structure Zobrist where
  table : Nat → Nat → Nat → Nat
  black_to_move : Nat

/-- `Zobrist::piece_index`: B→0, W→1, K→2, anything else → None. -/
def piece_index (piece : Char) : Option Nat :=
  match piece with
  | 'B' => some 0
  | 'W' => some 1
  | 'K' => some 2
  | _   => none

/-- The board: `board[r][c]` of `GameState`. -/
abbrev Board := Nat → Nat → Char

/-- A move `[start_row, start_col, end_row, end_col]`. -/
abbrev Coords := Nat × Nat × Nat × Nat

/-- Writing one cell of the board (`self.board[r][c] = v`). -/
def set_cell (b : Board) (r c : Nat) (v : Char) : Board :=
  fun r' c' => if r' = r ∧ c' = c then v else b r' c'

/-- `GameState` (hnefatafl.rs).  `history` models the prefix
`history[0..history_len]` of the 512-slot array. -/
structure GameState where
  board : Board
  player : Char
  hash : Nat
  king_pos : Nat × Nat
  history : List Nat

/-- `MAX_GAME_LENGTH` (hnefatafl.rs line 11). -/
def MAX_GAME_LENGTH : Nat := 512

/-- Row-major list of the 49 board coordinates (the iteration order of
the Rust `for r in 0..7 { for c in 0..7 { ... } }` loops). -/
def positions : List (Nat × Nat) :=
  (List.range 7).flatMap (fun r => (List.range 7).map (fun c => (r, c)))

/-- The four orthogonal directions, in the order the Rust lists them:
up, down, left, right. -/
def directions : List (Int × Int) := [(-1, 0), (1, 0), (0, -1), (0, 1)]

/-- Zobrist contribution of one cell: the piece constant if the cell is
occupied, 0 if empty (the `if let Some(p_idx)` in `GameState::new`). -/
def cell_hash (z : Zobrist) (b : Board) (p : Nat × Nat) : Nat :=
  match piece_index (b p.1 p.2) with
  | some idx => z.table p.1 p.2 idx
  | none => 0

/-- XOR of the piece constants of every non-empty cell (the hash loop of
`GameState::new`, and the board part of the spec's hash invariant). -/
def board_hash (z : Zobrist) (b : Board) : Nat :=
  (positions.map (cell_hash z b)).foldl (· ^^^ ·) 0

/-- The starting board of `GameState::new`. -/
def initial_rows : List (List Char) :=
  [['.', '.', '.', 'B', '.', '.', '.'],
   ['.', '.', '.', 'B', '.', '.', '.'],
   ['.', '.', '.', 'W', '.', '.', '.'],
   ['B', 'B', 'W', 'K', 'W', 'B', 'B'],
   ['.', '.', '.', 'W', '.', '.', '.'],
   ['.', '.', '.', 'B', '.', '.', '.'],
   ['.', '.', '.', 'B', '.', '.', '.']]

def initial_board : Board :=
  fun r c => (initial_rows.getD r []).getD c '.'

/-- `GameState::new`: starting board, black to move, hash of the board
XOR the black-to-move constant, king on the throne, history seeded with
the starting hash. -/
def GameState.new (z : Zobrist) : GameState :=
  let h := board_hash z initial_board ^^^ z.black_to_move
  { board := initial_board
    player := 'B'
    hash := h
    king_pos := (3, 3)
    history := [h] }

/-- `GameState::is_static_hostile`: hostility of a square by virtue of
the map alone (square treated as empty). -/
def is_static_hostile (row col : Nat) (victim : Char) : Bool :=
  if (row == 0 || row == 6) && (col == 0 || col == 6) then true
  else if row == 3 && col == 3 then
    match victim with
    | 'B' => true
    | 'W' => true
    | _ => false
  else false

/-- `GameState::is_hostile`: enemy piece, corner, or throne (throne
hostile to white only when empty). -/
def is_hostile (b : Board) (row col : Nat) (victim : Char) : Bool :=
  if victim != 'B' && victim != 'W' then false
  else
    let square := b row col
    if victim == 'B' && (square != '.' && square != victim) then true
    else if victim == 'W' && (square != '.' && square != victim && square != 'K') then true
    else if (row == 0 || row == 6) && (col == 0 || col == 6) then true
    else if row == 3 && col == 3 then
      match victim with
      | 'B' => true
      | 'W' => square == '.'
      | _ => false
    else false

/-- Count of hostile-to-the-king squares among one axis pair
(the inner `for (er, ec) in pair` loop of `check_king_capture`):
off-board squares are skipped, attackers and corners count. -/
def king_hostile_count (b : Board) (pair : List (Int × Int)) : Nat :=
  pair.foldl
    (fun cnt p =>
      if p.1 < 0 || p.1 > 6 || p.2 < 0 || p.2 > 6 then cnt
      else if b p.1.toNat p.2.toNat == 'B'
              || ((p.1 == 0 || p.1 == 6) && (p.2 == 0 || p.2 == 6)) then cnt + 1
      else cnt) 0

/-- `GameState::check_king_capture`. -/
def check_king_capture (b : Board) (r c : Nat) : Bool :=
  if r == 3 && c == 3 then
    ([(2, 3), (3, 2), (3, 4), (4, 3)] : List (Nat × Nat)).all
      (fun p => b p.1 p.2 == 'B')
  else if (r == 2 && c == 3) || (r == 3 && c == 2) || (r == 3 && c == 4)
          || (r == 4 && c == 3) then
    ([((r : Int) - 1, (c : Int)), ((r : Int) + 1, (c : Int)),
      ((r : Int), (c : Int) - 1), ((r : Int), (c : Int) + 1)] : List (Int × Int)).all
      (fun p => b p.1.toNat p.2.toNat == 'B' || (p.1 == 3 && p.2 == 3))
  else
    ([[((r : Int) - 1, (c : Int)), ((r : Int) + 1, (c : Int))],
      [((r : Int), (c : Int) - 1), ((r : Int), (c : Int) + 1)]] : List (List (Int × Int))).any
      (fun pair => king_hostile_count b pair == 2)

/-- `GameState::next_hash`: hash of the successor without mutating the
state.  Moves the mover in the hash, flips side to move, then XORs out
each victim the move would capture, treating the vacated source square
as empty ("ghost square"). -/
def next_hash (s : GameState) (coords : Coords) (z : Zobrist) : Nat :=
  let (sr, sc, er, ec) := coords
  let piece := s.board sr sc
  match piece_index piece with
  | none => s.hash
  | some p_idx =>
    let h := s.hash ^^^ z.table sr sc p_idx ^^^ z.table er ec p_idx ^^^ z.black_to_move
    let enemy? : Option Char :=
      match piece with
      | 'B' => some 'W'
      | 'W' => some 'B'
      | 'K' => some 'B'
      | _ => none
    match enemy? with
    | none => h
    | some enemy =>
      let enemy_idx := (piece_index enemy).getD 0
      directions.foldl
        (fun h d =>
          let rv : Int := (er : Int) + d.1
          let cv : Int := (ec : Int) + d.2
          if rv < 0 || rv > 6 || cv < 0 || cv > 6 then h
          else
            let r_victim := rv.toNat
            let c_victim := cv.toNat
            if s.board r_victim c_victim != enemy then h
            else
              let ra : Int := rv + d.1
              let ca : Int := cv + d.2
              if ra < 0 || ra > 6 || ca < 0 || ca > 6 then h
              else
                let r_anvil := ra.toNat
                let c_anvil := ca.toNat
                if r_anvil == sr && c_anvil == sc then
                  if !is_static_hostile r_anvil c_anvil enemy then h
                  else h ^^^ z.table r_victim c_victim enemy_idx
                else
                  if !is_hostile s.board r_anvil c_anvil enemy then h
                  else h ^^^ z.table r_victim c_victim enemy_idx) h

/-- One direction of `GameState::apply_captures`: check the adjacent
square for a target, handle king capture via `check_king_capture`,
otherwise the standard sandwich with `is_hostile` on the anvil. -/
def capture_step (targets : List Char) (z : Zobrist) (row col : Nat)
    (s : GameState) (d : Int × Int) : GameState :=
  let er : Int := (row : Int) + d.1
  let ec : Int := (col : Int) + d.2
  if er < 0 || er > 6 || ec < 0 || ec > 6 then s
  else
    let er := er.toNat
    let ec := ec.toNat
    let neighbor := s.board er ec
    if !targets.contains neighbor then s
    else if neighbor == 'K' then
      if check_king_capture s.board er ec then
        { s with
          board := set_cell s.board er ec '.'
          hash := s.hash ^^^ z.table er ec ((piece_index 'K').getD 0) }
      else s
    else
      let br : Int := (er : Int) + d.1
      let bc : Int := (ec : Int) + d.2
      if br < 0 || br > 6 || bc < 0 || bc > 6 then s
      else
        let br := br.toNat
        let bc := bc.toNat
        if !is_hostile s.board br bc neighbor then s
        else
          { s with
            board := set_cell s.board er ec '.'
            hash := s.hash ^^^ z.table er ec ((piece_index neighbor).getD 0) }

/-- `GameState::apply_captures`: remove every captured neighbour of the
destination square, updating the hash for each removal.  The `targets`
vector of the Rust (`['W','K']` for a black mover, `['B']` for a white
or king mover, early return otherwise) selects the fold. -/
def apply_captures (s : GameState) (row col : Nat) (z : Zobrist) : GameState :=
  let mover := s.board row col
  if mover == '.' then s
  else
    match mover with
    | 'B' => directions.foldl (capture_step ['W', 'K'] z row col) s
    | 'W' => directions.foldl (capture_step ['B'] z row col) s
    | 'K' => directions.foldl (capture_step ['B'] z row col) s
    | _ => s

/-- `GameState::move_piece`: update board, hash, king position, history
(only below the 512-ply cap), side to move, then apply captures.
The `unwrap` on the mover's piece index is modelled by `getD 0`; a
legal move always has a piece at the source. -/
def move_piece (s : GameState) (coords : Coords) (z : Zobrist) : GameState :=
  let (sr, sc, er, ec) := coords
  let piece := s.board sr sc
  let p_idx := (piece_index piece).getD 0
  let board := set_cell (set_cell s.board er ec piece) sr sc '.'
  let hash := s.hash ^^^ z.table sr sc p_idx ^^^ z.table er ec p_idx ^^^ z.black_to_move
  let king_pos := if piece == 'K' then (er, ec) else s.king_pos
  let history := if s.history.length < MAX_GAME_LENGTH then s.history ++ [hash] else s.history
  let player := if s.player == 'B' then 'W' else 'B'
  apply_captures
    { board := board, player := player, hash := hash, king_pos := king_pos,
      history := history } er ec z

/-- `GameState::is_nonking_entering_restricted`. -/
def is_nonking_entering_restricted (s : GameState) (coords : Coords) : Bool :=
  let (sr, sc, er, ec) := coords
  if s.board sr sc != 'K' then
    ((er == 0 || er == 6) && (ec == 0 || ec == 6)) || (er == 3 && ec == 3)
  else false

/-- `GameState::is_illegal_repetition`: the successor hash already
appears in the history (the unused `coords` parameter of the Rust
function is dropped). -/
def is_illegal_repetition (s : GameState) (h : Nat) : Bool :=
  s.history.contains h

/-- `DRAW_PIECE_THRESHOLD` (hnefatafl.rs line 432). -/
def DRAW_PIECE_THRESHOLD : Nat := 1

/-- `GameState::is_insufficient_material_draw`: counts attackers and
non-king defenders over the whole board. -/
def is_insufficient_material_draw (s : GameState) : Bool :=
  let attackers := (positions.filter (fun p => s.board p.1 p.2 == 'B')).length
  let defenders := (positions.filter (fun p => s.board p.1 p.2 == 'W')).length
  attackers ≤ DRAW_PIECE_THRESHOLD + 1 && defenders ≤ DRAW_PIECE_THRESHOLD

/-- Destinations swept in direction `d` from `(r, c)`: every empty cell
until a piece or the board edge blocks (the `while`/`for` scan loops of
`has_legal_move` and `get_legal_moves`).  Fuel 7 bounds the sweep. -/
def ray_aux (b : Board) (d : Int × Int) : Nat → Int → Int → List (Nat × Nat)
  | 0, _, _ => []
  | fuel + 1, r, c =>
    if r < 0 || r > 6 || c < 0 || c > 6 then []
    else if b r.toNat c.toNat != '.' then []
    else (r.toNat, c.toNat) :: ray_aux b d fuel (r + d.1) (c + d.2)

def ray (b : Board) (r c : Nat) (d : Int × Int) : List (Nat × Nat) :=
  ray_aux b d 7 ((r : Int) + d.1) ((c : Int) + d.2)

/-- The piece-ownership filter at the top of the scan loops:
`piece == '.'` skips, black moves only B, white moves W or K. -/
def own_piece (player piece : Char) : Bool :=
  if piece == '.' then false
  else if player == 'B' && piece != 'B' then false
  else if player == 'W' && !(piece == 'W' || piece == 'K') then false
  else true

/-- The per-candidate filter shared by `has_legal_move` and
`get_legal_moves`: not a non-king move into a restricted square, and
not a repetition of a recorded hash. -/
def move_passes (s : GameState) (coords : Coords) (z : Zobrist) : Bool :=
  !is_nonking_entering_restricted s coords
    && !is_illegal_repetition s (next_hash s coords z)

/-- `GameState::has_legal_move`. -/
def has_legal_move (s : GameState) (player : Char) (z : Zobrist) : Bool :=
  positions.any fun rc =>
    own_piece player (s.board rc.1 rc.2)
      && directions.any fun d =>
        (ray s.board rc.1 rc.2 d).any fun dst =>
          move_passes s (rc.1, rc.2, dst.1, dst.2) z

/-- `GameState::get_legal_moves` (the cleared-and-refilled vector is
returned as a list, in the push order of the Rust loops). -/
def get_legal_moves (s : GameState) (z : Zobrist) : List Coords :=
  positions.flatMap fun rc =>
    if !own_piece s.player (s.board rc.1 rc.2) then []
    else directions.flatMap fun d =>
      (ray s.board rc.1 rc.2 d).filterMap fun dst =>
        let coords : Coords := (rc.1, rc.2, dst.1, dst.2)
        if move_passes s coords z then some coords else none

/-- `GameState::check_game_over`: corner win, captured-king win, Rule 9
(no legal move), then the insufficient-material draw. -/
def check_game_over (s : GameState) (z : Zobrist) : Option Char :=
  if ([(0, 0), (0, 6), (6, 0), (6, 6)] : List (Nat × Nat)).any
      (fun p => s.board p.1 p.2 == 'K') then some 'W'
  else if s.board s.king_pos.1 s.king_pos.2 != 'K' then some 'B'
  else if !has_legal_move s s.player z then
    some (if s.player == 'B' then 'W' else 'B')
  else if is_insufficient_material_draw s then some 'D'
  else none

/-- The squares strictly between source and destination
(`(clear_start + 1)..clear_end` in `is_legal_move`). -/
def path_clear (b : Board) (coords : Coords) : Bool :=
  let (sr, sc, er, ec) := coords
  if sr == er then
    (List.range' (min sc ec + 1) (max sc ec - (min sc ec + 1))).all
      (fun i => b sr i == '.')
  else
    (List.range' (min sr er + 1) (max sr er - (min sr er + 1))).all
      (fun i => b i sc == '.')

/-- `GameState::is_legal_move`: the full validity check, in the Rust's
early-return order. -/
def is_legal_move (s : GameState) (coords : Coords) (z : Zobrist) : Bool :=
  let (sr, sc, er, ec) := coords
  if sr == er && sc == ec then false
  else if sr > 6 || sc > 6 || er > 6 || ec > 6 then false
  else
    let piece := s.board sr sc
    if piece == '.' then false
    else if s.board er ec != '.' then false
    else if s.player == 'B' && piece != 'B' then false
    else if s.player == 'W' && (piece != 'W' && piece != 'K') then false
    else if sr != er && sc != ec then false
    else if !path_clear s.board coords then false
    else if is_nonking_entering_restricted s coords then false
    else if is_illegal_repetition s (next_hash s coords z) then false
    else true

/-- The states reachable from the starting position by legal moves. -/
inductive Reachable (z : Zobrist) : GameState → Prop
  | base : Reachable z (GameState.new z)
  | step {s : GameState} {c : Coords} :
      Reachable z s → is_legal_move s c z = true → Reachable z (move_piece s c z)

/-!
### Transposition table (`transposition.rs`)

An entry is its 128-bit packed word, modelled as a `Nat`; the `u128`
bit operations are translated literally, with explicit `% 2 ^ 128`
where the Rust shift wraps.  A bucket is its list of four entries.
-/

def TT_DIM_BITS : Nat := 24
def TT_DIM : Nat := 2 ^ TT_DIM_BITS
def TT_DIM_MINUS_1 : Nat := TT_DIM - 1

def HASH_BITS : Nat := 40
def GEN_BITS : Nat := 29
def VISITS_BITS : Nat := 29
def WINS_BITS : Nat := 30

def HASH_OFFSET : Nat := 0
def GEN_OFFSET : Nat := HASH_OFFSET + HASH_BITS
def VISITS_OFFSET : Nat := GEN_OFFSET + GEN_BITS
def WINS_OFFSET : Nat := VISITS_OFFSET + VISITS_BITS

def HASH_MASK : Nat := (2 ^ HASH_BITS - 1) <<< HASH_OFFSET
def GEN_MASK : Nat := (2 ^ GEN_BITS - 1) <<< GEN_OFFSET
def VISITS_MASK : Nat := (2 ^ VISITS_BITS - 1) <<< VISITS_OFFSET
def WINS_MASK : Nat := (2 ^ WINS_BITS - 1) <<< WINS_OFFSET

/-- `usize::MAX` on the 64-bit target. -/
def USIZE_MAX : Nat := 2 ^ 64 - 1

/-- Bitwise complement on `u128`. -/
def u128_not (x : Nat) : Nat := (2 ^ 128 - 1) ^^^ x

/-- `as u128` on an `isize`: the two's-complement bit pattern. -/
def to_u128 (v : Int) : Nat := (v % (2 ^ 128 : Int)).toNat

/-- Reading a 64-bit pattern as an `i64`. -/
def to_i64 (x : Nat) : Int := if x < 2 ^ 63 then (x : Int) else (x : Int) - 2 ^ 64

/-- Arithmetic shift right on `i64` = floor division by a power of two. -/
def sar64 (x : Int) (n : Nat) : Int := Int.fdiv x (2 ^ n)

/-- `TT_entry::hash_equals`: compare the stored 40-bit tag with the
upper 40 bits of the query hash. -/
def hash_equals (data hash : Nat) : Bool :=
  (data &&& HASH_MASK) == hash >>> TT_DIM_BITS

/-- `TT_entry::get_generation`. -/
def get_generation (data : Nat) : Nat :=
  (data &&& GEN_MASK) >>> GEN_OFFSET

/-- `TT_entry::get_n_visits`. -/
def get_n_visits (data : Nat) : Nat :=
  (data &&& VISITS_MASK) >>> VISITS_OFFSET

/-- `TT_entry::get_n_wins`: extract the top 30 bits (`raw`) and
sign-extend by shifting to the top of an `i64` and arithmetically
shifting back. -/
def get_n_wins (data : Nat) : Int :=
  sar64 (to_i64 (((data &&& WINS_MASK) >>> WINS_OFFSET <<< (64 - WINS_BITS)) % 2 ^ 64))
    (64 - WINS_BITS)

/-- `TT_entry::set_hash`. -/
def set_hash (data hash : Nat) : Nat :=
  (data &&& u128_not HASH_MASK) ||| ((hash >>> TT_DIM_BITS) &&& HASH_MASK)

/-- `TT_entry::set_generation` (a `u32` shifted to offset 40 cannot
overflow `u128`, so no wrap is needed). -/
def set_generation (data generation : Nat) : Nat :=
  (data &&& u128_not GEN_MASK) ||| (generation <<< GEN_OFFSET)

/-- `TT_entry::set_n_visits`. -/
def set_n_visits (data value : Nat) : Nat :=
  (data &&& u128_not VISITS_MASK) ||| (((value <<< VISITS_OFFSET) % 2 ^ 128) &&& VISITS_MASK)

/-- `TT_entry::set_n_wins`. -/
def set_n_wins (data : Nat) (value : Int) : Nat :=
  (data &&& u128_not WINS_MASK) ||| (((to_u128 value <<< WINS_OFFSET) % 2 ^ 128) &&& WINS_MASK)

/-- `TT_entry::add_n_visits`. -/
def add_n_visits (data increase : Nat) : Nat :=
  set_n_visits data (get_n_visits data + increase)

/-- `TT_entry::add_n_wins`. -/
def add_n_wins (data : Nat) (increase : Int) : Nat :=
  set_n_wins data (get_n_wins data + increase)

/-- `TT_bucket::get_entry`: first entry of the bucket whose tag matches. -/
def get_entry (bucket : List Nat) (hash : Nat) : Option Nat :=
  bucket.find? (fun e => hash_equals e hash)

/-- The overwrite performed by `TT_bucket::add_entry` on a claimed or
evicted entry: `set_hash`, `set_generation`, visits 0, wins 0. -/
def write_fresh (e hash generation : Nat) : Nat :=
  set_n_wins (set_n_visits (set_generation (set_hash e hash) generation) 0) 0

/-- The fallback scan of `add_entry` ("bucket full"): least-visited
entry over the whole bucket, tracking `(min_visits, min_index)` with a
strict comparison. -/
def least_visited_aux : List Nat → Nat → Nat → Nat → Nat × Nat
  | [], _, minv, mini => (minv, mini)
  | e :: rest, idx, minv, mini =>
    if get_n_visits e < minv then least_visited_aux rest (idx + 1) (get_n_visits e) idx
    else least_visited_aux rest (idx + 1) minv mini

/-- The single scan loop of `TT_bucket::add_entry`: per entry in index
order, a matching tag returns unchanged, an empty tag (0) is claimed,
otherwise entries with stale generation feed the running minimum; after
the loop the tracked (or, failing that, the overall) least-visited
entry is overwritten. -/
def add_entry_aux (orig : List Nat) (hash generation bound : Nat) :
    List Nat → Nat → Nat → Nat → List Nat
  | [], _, minv, mini =>
    if minv == USIZE_MAX then
      orig.set (least_visited_aux orig 0 USIZE_MAX USIZE_MAX).2
        (write_fresh (orig.getD (least_visited_aux orig 0 USIZE_MAX USIZE_MAX).2 0)
          hash generation)
    else orig.set mini (write_fresh (orig.getD mini 0) hash generation)
  | e :: rest, idx, minv, mini =>
    if hash_equals e hash then orig
    else if hash_equals e 0 then orig.set idx (write_fresh e hash generation)
    else if get_generation e < bound then
      if get_n_visits e < minv then
        add_entry_aux orig hash generation bound rest (idx + 1) (get_n_visits e) idx
      else add_entry_aux orig hash generation bound rest (idx + 1) minv mini
    else add_entry_aux orig hash generation bound rest (idx + 1) minv mini

/-- `TT_bucket::add_entry`. -/
def add_entry (bucket : List Nat) (hash generation bound : Nat) : List Nat :=
  add_entry_aux bucket hash generation bound bucket 0 USIZE_MAX USIZE_MAX

/-- The transposition table: the boxed slice of buckets. -/
structure TT where
  buckets : Array (List Nat)

/-- `TT::new`: `TT_DIM` zeroed buckets. -/
def TT.new : TT := ⟨Array.mkArray TT_DIM [0, 0, 0, 0]⟩

/-- The index computation of `TT::get_bucket`. -/
def get_bucket_index (hash : Nat) : Nat := hash &&& TT_DIM_MINUS_1

/-- `TT::get_bucket`, with the unchecked access made checked: `none`
would model an out-of-bounds access. -/
def TT.get_bucket (tt : TT) (hash : Nat) : Option (List Nat) :=
  tt.buckets[get_bucket_index hash]?

/-!
### Search driver (`mcts.rs`)
-/

/-- Modelled from the spec: `MAX_ITER` is imported by `mcts.rs` from
`transposition.rs`, where no definition is present in the sources; the
spec pins the construction-time invariant
`2 ^ VISITS_BITS > 2 ^ GEN_BITS * iterations_per_move`, which the
`iterations_per_move >= MAX_ITER` guard enforces exactly when
`MAX_ITER = 2 ^ (VISITS_BITS - GEN_BITS)`. -/
def MAX_ITER : Nat := 2 ^ (VISITS_BITS - GEN_BITS)

/-- `MAX_GEN` (mcts.rs line 18). -/
def MAX_GEN : Nat := 2 ^ 15

/-- The configuration fields of `MCTS` that the claims touch (the UCB
constant is floating point and the PRNG, Zobrist table and TT are
separate heavy state; none of them affect the construction check). -/
structure MCTS where
  iterations_per_move : Nat
  generation : Nat
  generation_range : Nat
  generation_bound : Nat

/-- `MCTS::new`: `none` models the construction-time overflow panic. -/
def MCTS.new (seed iterations_per_move generation_range : Nat) : Option MCTS :=
  if iterations_per_move ≥ MAX_ITER then none
  else some
    { iterations_per_move := iterations_per_move
      generation := 0
      generation_range := generation_range
      generation_bound := 0 }

/-- The loop body of the root-move extraction of `MCTS::get_move`:
a TT-cached child beating the running maximum `acc.1` is taken unless
its state is terminal with a winner other than the root's player
(`if !(root.player != winner)` in the source). -/
def root_step (root : GameState) (z : Zobrist) (lookup : Nat → Option Nat)
    (acc : Nat × Option Coords) (m : Coords) : Nat × Option Coords :=
  match lookup (next_hash root m z) with
  | some entry =>
    if get_n_visits entry > acc.1 then
      match check_game_over (move_piece root m z) z with
      | some winner =>
        if !(root.player != winner) then (get_n_visits entry, some m) else acc
      | none => (get_n_visits entry, some m)
    else acc
  | none => acc

/-- The root-move extraction of `MCTS::get_move` (after the search):
fold `root_step` over the legal moves from `(max_visits, best_move) =
(0, None)`.  `lookup h` stands for `get_entry (get_bucket h) h` on the
driver's table; the result `none` models the fall-through to the
uniformly random move. -/
def get_move_choice (root : GameState) (z : Zobrist) (lookup : Nat → Option Nat) :
    Option Coords :=
  ((get_legal_moves root z).foldl (root_step root z lookup) (0, none)).2

/-!
### Spec-side statement of the king-capture rule (claim C3)

These definitions follow the wording of the spec, to be compared with
`check_king_capture` (which is translated from the source).
-/

/-- A corner square. -/
def corner_square (r c : Int) : Prop := (r = 0 ∨ r = 6) ∧ (c = 0 ∨ c = 6)

/-- An on-board square. -/
def on_board (r c : Int) : Prop := 0 ≤ r ∧ r ≤ 6 ∧ 0 ≤ c ∧ c ≤ 6

/-- Spec: in the "king elsewhere" case a side is hostile iff it is on
the board and holds an attacker or is a corner; off-board is not
hostile. -/
def hostile_to_king (b : Board) (r c : Int) : Prop :=
  on_board r c ∧ (b r.toNat c.toNat = 'B' ∨ corner_square r c)

/-- Spec: in the "next to the throne" case a neighbour is hostile iff
it holds an attacker, the throne counting as hostile. -/
def hostile_adjacent_case (b : Board) (p : Int × Int) : Prop :=
  b p.1.toNat p.2.toNat = 'B' ∨ p = ((3 : Int), (3 : Int))

/-- The spec's three-case king-capture rule, as the claim states it. -/
def spec_king_capture (b : Board) (r c : Nat) : Prop :=
  if r = 3 ∧ c = 3 then
    b 2 3 = 'B' ∧ b 3 2 = 'B' ∧ b 3 4 = 'B' ∧ b 4 3 = 'B'
  else if (r = 2 ∧ c = 3) ∨ (r = 3 ∧ c = 2) ∨ (r = 3 ∧ c = 4) ∨ (r = 4 ∧ c = 3) then
    ∀ p ∈ [((r : Int) - 1, (c : Int)), ((r : Int) + 1, (c : Int)),
           ((r : Int), (c : Int) - 1), ((r : Int), (c : Int) + 1)],
      p ≠ ((3 : Int), (3 : Int)) → hostile_adjacent_case b p
  else
    (hostile_to_king b ((r : Int) - 1) (c : Int) ∧ hostile_to_king b ((r : Int) + 1) (c : Int))
      ∨ (hostile_to_king b (r : Int) ((c : Int) - 1) ∧ hostile_to_king b (r : Int) ((c : Int) + 1))

/-- The per-side condition counted by `king_hostile_count`. -/
def king_hostile (b : Board) (p : Int × Int) : Bool :=
  !(p.1 < 0 || p.1 > 6 || p.2 < 0 || p.2 > 6)
    && (b p.1.toNat p.2.toNat == 'B' || ((p.1 == 0 || p.1 == 6) && (p.2 == 0 || p.2 == 6)))

theorem foldl_two_count {α : Type} (f g : α → Bool) (p q : α) :
    (([p, q].foldl (fun cnt x => if f x then cnt else if g x then cnt + 1 else cnt) 0) == 2)
      = (!f p && g p && (!f q && g q)) := by
  cases hfp : f p <;> cases hgp : g p <;> cases hfq : f q <;> cases hgq : g q <;>
    simp [hfp, hgp, hfq, hgq]

theorem king_hostile_count_pair (b : Board) (p q : Int × Int) :
    (king_hostile_count b [p, q] == 2) = (king_hostile b p && king_hostile b q) := by
  have h := foldl_two_count
    (fun x : Int × Int => (x.1 < 0 || x.1 > 6 || x.2 < 0 || x.2 > 6 : Bool))
    (fun x : Int × Int =>
      (b x.1.toNat x.2.toNat == 'B' || ((x.1 == 0 || x.1 == 6) && (x.2 == 0 || x.2 == 6)) : Bool))
    p q
  simpa [king_hostile_count, king_hostile] using h

theorem king_hostile_iff (b : Board) (p : Int × Int) :
    king_hostile b p = true ↔ hostile_to_king b p.1 p.2 := by
  simp only [king_hostile, hostile_to_king, on_board, corner_square,
    Bool.and_eq_true, Bool.or_eq_true, Bool.not_eq_true', Bool.or_eq_false_iff,
    beq_iff_eq, decide_eq_true_eq, decide_eq_false_iff_not]
  constructor
  · rintro ⟨h1, h2⟩
    exact ⟨by omega, h2⟩
  · rintro ⟨h1, h2⟩
    exact ⟨by omega, h2⟩

/-- Claim C3: `check_king_capture` returns true exactly under the
spec's three-case king-capture rule. -/
theorem C3_check_king_capture_eq_spec (b : Board) (r c : Nat) :
    check_king_capture b r c = true ↔ spec_king_capture b r c := by
  by_cases h1 : r = 3 ∧ c = 3
  · obtain ⟨hr, hc⟩ := h1
    subst hr; subst hc
    simp [check_king_capture, spec_king_capture, and_assoc]
  · by_cases h2 : (r = 2 ∧ c = 3) ∨ (r = 3 ∧ c = 2) ∨ (r = 3 ∧ c = 4) ∨ (r = 4 ∧ c = 3)
    · have hcode : ¬(r == 3 && c == 3) = true := by
        simp only [Bool.and_eq_true, beq_iff_eq]; tauto
      rcases h2 with ⟨hr, hc⟩ | ⟨hr, hc⟩ | ⟨hr, hc⟩ | ⟨hr, hc⟩ <;> (subst hr; subst hc) <;>
        norm_num [check_king_capture, spec_king_capture, hostile_adjacent_case,
          List.forall_mem_cons, Prod.mk.injEq, and_assoc]
    · have hcode1 : ¬(r == 3 && c == 3) = true := by
        simp only [Bool.and_eq_true, beq_iff_eq]; tauto
      have hcode2 : ¬((r == 2 && c == 3) || (r == 3 && c == 2) || (r == 3 && c == 4)
          || (r == 4 && c == 3)) = true := by
        simp only [Bool.or_eq_true, Bool.and_eq_true, beq_iff_eq]; tauto
      rw [check_king_capture, spec_king_capture]
      rw [if_neg hcode1, if_neg hcode2, if_neg h1, if_neg h2]
      simp only [List.any_cons, List.any_nil, Bool.or_false, Bool.or_eq_true,
        king_hostile_count_pair, Bool.and_eq_true, king_hostile_iff]

/-!
### Spec-side statement of terminal detection (claim C4)
-/

/-- The winner when the side to move has no legal move (Rule 9). -/
def opponent (player : Char) : Char := if player == 'B' then 'W' else 'B'

/-- The spec's terminal rule, in the claimed precedence: king on a
corner, king absent from the board, no legal move for the side to
move, insufficient material, else none. -/
def spec_game_over (s : GameState) (z : Zobrist) : Option Char :=
  if s.board 0 0 = 'K' ∨ s.board 0 6 = 'K' ∨ s.board 6 0 = 'K' ∨ s.board 6 6 = 'K' then
    some 'W'
  else if ∀ p ∈ positions, s.board p.1 p.2 ≠ 'K' then some 'B'
  else if get_legal_moves s z = [] then some (opponent s.player)
  else if (positions.filter (fun p => s.board p.1 p.2 == 'B')).length ≤ 2
          ∧ (positions.filter (fun p => s.board p.1 p.2 == 'W')).length ≤ 1 then
    some 'D'
  else none

theorem mem_ite_nil {α : Type} {c : Prop} [Decidable c] {a : α} {l : List α} :
    (a ∈ if c then ([] : List α) else l) ↔ ¬c ∧ a ∈ l := by
  split <;> simp [*]

theorem mem_get_legal_moves {s : GameState} {z : Zobrist} {m : Coords} :
    m ∈ get_legal_moves s z ↔
      ∃ rc ∈ positions, own_piece s.player (s.board rc.1 rc.2) = true ∧
        ∃ d ∈ directions, ∃ dst ∈ ray s.board rc.1 rc.2 d,
          move_passes s (rc.1, rc.2, dst.1, dst.2) z = true
            ∧ m = (rc.1, rc.2, dst.1, dst.2) := by
  simp only [get_legal_moves, List.mem_flatMap, mem_ite_nil, Bool.not_eq_true,
    Bool.not_eq_false, List.mem_filterMap, Option.ite_none_right_eq_some,
    Option.some.injEq]
  constructor
  · rintro ⟨rc, hrc, hown, d, hd, dst, hdst, hpass, rfl⟩
    exact ⟨rc, hrc, by simpa using hown, d, hd, dst, hdst, hpass, rfl⟩
  · rintro ⟨rc, hrc, hown, d, hd, dst, hdst, hpass, rfl⟩
    exact ⟨rc, hrc, by simpa using hown, d, hd, dst, hdst, hpass, rfl⟩

theorem has_legal_move_iff_exists (s : GameState) (player : Char) (z : Zobrist) :
    has_legal_move s player z = true ↔
      ∃ rc ∈ positions, own_piece player (s.board rc.1 rc.2) = true ∧
        ∃ d ∈ directions, ∃ dst ∈ ray s.board rc.1 rc.2 d,
          move_passes s (rc.1, rc.2, dst.1, dst.2) z = true := by
  simp [has_legal_move, List.any_eq_true, Bool.and_eq_true]

theorem get_legal_moves_ne_nil_iff (s : GameState) (z : Zobrist) :
    get_legal_moves s z ≠ [] ↔ has_legal_move s s.player z = true := by
  rw [ne_eq, List.eq_nil_iff_forall_not_mem, has_legal_move_iff_exists]
  push_neg
  constructor
  · rintro ⟨m, hm⟩
    rw [mem_get_legal_moves] at hm
    obtain ⟨rc, hrc, hown, d, hd, dst, hdst, hpass, rfl⟩ := hm
    exact ⟨rc, hrc, hown, d, hd, dst, hdst, hpass⟩
  · rintro ⟨rc, hrc, hown, d, hd, dst, hdst, hpass⟩
    exact ⟨_, mem_get_legal_moves.mpr ⟨rc, hrc, hown, d, hd, dst, hdst, hpass, rfl⟩⟩

/-- Claim C4: `check_game_over` decides the game by the spec's rules in
the claimed precedence, provided the cached king position is accurate
(it holds the king exactly when a king is on the board — the invariant
`move_piece` maintains). -/
theorem C4_check_game_over_eq_spec (s : GameState) (z : Zobrist)
    (hk : s.board s.king_pos.1 s.king_pos.2 = 'K'
        ↔ ∃ p ∈ positions, s.board p.1 p.2 = 'K') :
    check_game_over s z = spec_game_over s z := by
  rw [check_game_over, spec_game_over]
  have hcorner : (([(0, 0), (0, 6), (6, 0), (6, 6)] : List (Nat × Nat)).any
      (fun p => s.board p.1 p.2 == 'K') = true)
      ↔ (s.board 0 0 = 'K' ∨ s.board 0 6 = 'K' ∨ s.board 6 0 = 'K' ∨ s.board 6 6 = 'K') := by
    simp
  have habsent : (s.board s.king_pos.1 s.king_pos.2 != 'K') = true
      ↔ (∀ p ∈ positions, s.board p.1 p.2 ≠ 'K') := by
    rw [bne_iff_ne, ne_eq, hk]
    push_neg
    rfl
  have hrule9 : (!has_legal_move s s.player z) = true ↔ get_legal_moves s z = [] := by
    rw [Bool.not_eq_true', ← Bool.not_eq_true, ← get_legal_moves_ne_nil_iff, not_not]
  have hdraw : is_insufficient_material_draw s = true
      ↔ ((positions.filter (fun p => s.board p.1 p.2 == 'B')).length ≤ 2
          ∧ (positions.filter (fun p => s.board p.1 p.2 == 'W')).length ≤ 1) := by
    simp [is_insufficient_material_draw, DRAW_PIECE_THRESHOLD]
  by_cases h1 : s.board 0 0 = 'K' ∨ s.board 0 6 = 'K' ∨ s.board 6 0 = 'K' ∨ s.board 6 6 = 'K'
  · rw [if_pos (hcorner.mpr h1), if_pos h1]
  · rw [if_neg (fun hh => h1 (hcorner.mp hh)), if_neg h1]
    by_cases h2 : ∀ p ∈ positions, s.board p.1 p.2 ≠ 'K'
    · rw [if_pos (habsent.mpr h2), if_pos h2]
    · rw [if_neg (fun hh => h2 (habsent.mp hh)), if_neg h2]
      by_cases h3 : get_legal_moves s z = []
      · rw [if_pos (hrule9.mpr h3), if_pos h3]
        rfl
      · rw [if_neg (fun hh => h3 (hrule9.mp hh)), if_neg h3]
        by_cases h4 : (positions.filter (fun p => s.board p.1 p.2 == 'B')).length ≤ 2
            ∧ (positions.filter (fun p => s.board p.1 p.2 == 'W')).length ≤ 1
        · rw [if_pos (hdraw.mpr h4), if_pos h4]
        · rw [if_neg (fun hh => h4 (hdraw.mp hh)), if_neg h4]

/-- The concrete Zobrist table used for witnesses and counterexamples
(an injective assignment of small constants; the Rust table is filled
from a seeded PRNG, which the claims do not depend on). -/
def z_test : Zobrist :=
  { table := fun r c p => r * 24 + c * 3 + p + 1
    black_to_move := 1024 }

theorem C4_check_game_over_eq_spec_witness :
    ((GameState.new z_test).board (GameState.new z_test).king_pos.1
        (GameState.new z_test).king_pos.2 = 'K'
      ↔ ∃ p ∈ positions, (GameState.new z_test).board p.1 p.2 = 'K')
    ∧ check_game_over (GameState.new z_test) z_test
        = spec_game_over (GameState.new z_test) z_test :=
  ⟨by decide, C4_check_game_over_eq_spec (GameState.new z_test) z_test (by decide)⟩

/-!
### The Zobrist hash invariant (claim C2)
-/

/-- The Zobrist contribution of a piece character at (r, c). -/
def entry_hash (z : Zobrist) (r c : Nat) (ch : Char) : Nat :=
  match piece_index ch with
  | some i => z.table r c i
  | none => 0

/-- The spec's hash invariant: the state hash is the XOR of the piece
constants of the non-empty cells, XOR the side-to-move constant exactly
when black is to move. -/
def hash_invariant (s : GameState) (z : Zobrist) : Prop :=
  s.hash = board_hash z s.board ^^^ (if s.player = 'B' then z.black_to_move else 0)

theorem cell_hash_eq (z : Zobrist) (b : Board) (p : Nat × Nat) :
    cell_hash z b p = entry_hash z p.1 p.2 (b p.1 p.2) := rfl

theorem foldl_xor_eq_foldr (l : List Nat) (acc : Nat) :
    l.foldl (· ^^^ ·) acc = acc ^^^ l.foldr (· ^^^ ·) 0 := by
  induction l generalizing acc with
  | nil => simp
  | cons a t ih =>
    rw [List.foldl_cons, List.foldr_cons, ih (acc ^^^ a), Nat.xor_assoc]

theorem board_hash_eq_foldr (z : Zobrist) (b : Board) :
    board_hash z b = (positions.map (cell_hash z b)).foldr (· ^^^ ·) 0 := by
  rw [board_hash, foldl_xor_eq_foldr, Nat.zero_xor]

theorem foldr_xor_congr {α : Type} (l : List α) (f g : α → Nat)
    (h : ∀ p ∈ l, f p = g p) :
    (l.map f).foldr (· ^^^ ·) 0 = (l.map g).foldr (· ^^^ ·) 0 := by
  induction l with
  | nil => rfl
  | cons a t ih =>
    rw [List.forall_mem_cons] at h
    simp only [List.map_cons, List.foldr_cons, h.1, ih h.2]

theorem xor_shuffle (a b x : Nat) : b ^^^ x = a ^^^ x ^^^ a ^^^ b :=
  calc b ^^^ x = x ^^^ (a ^^^ a) ^^^ b := by rw [Nat.xor_self, Nat.xor_zero, Nat.xor_comm]
  _ = a ^^^ x ^^^ a ^^^ b := by ac_rfl

theorem foldr_xor_update {α : Type} (l : List α) (f g : α → Nat) (q : α)
    (hnd : l.Nodup) (hq : q ∈ l) (h : ∀ p ∈ l, p ≠ q → f p = g p) :
    (l.map g).foldr (· ^^^ ·) 0 = (l.map f).foldr (· ^^^ ·) 0 ^^^ f q ^^^ g q := by
  induction l with
  | nil => cases hq
  | cons a t ih =>
    rw [List.nodup_cons] at hnd
    rcases List.mem_cons.mp hq with rfl | hq'
    · have hft : ∀ p ∈ t, f p = g p := fun p hp =>
        h p (List.mem_cons_of_mem _ hp) (fun he => hnd.1 (he ▸ hp))
      rw [List.map_cons, List.map_cons, List.foldr_cons, List.foldr_cons,
        foldr_xor_congr t f g hft]
      exact xor_shuffle (f q) (g q) _
    · have ha : a ≠ q := fun he => hnd.1 (he ▸ hq')
      rw [List.map_cons, List.map_cons, List.foldr_cons, List.foldr_cons,
        ih hnd.2 hq' (fun p hp hpq => h p (List.mem_cons_of_mem _ hp) hpq),
        h a (List.mem_cons_self a t) ha]
      simp only [Nat.xor_assoc]

theorem positions_nodup : positions.Nodup := by decide

theorem mem_positions {a b : Nat} : (a, b) ∈ positions ↔ a < 7 ∧ b < 7 := by
  simp only [positions, List.mem_flatMap, List.mem_map, List.mem_range]
  constructor
  · rintro ⟨r, hr, c, hc, heq⟩
    injection heq with h1 h2
    subst h1; subst h2
    exact ⟨hr, hc⟩
  · rintro ⟨ha, hb⟩
    exact ⟨a, ha, b, hb, rfl⟩

theorem set_cell_ne (b : Board) {r c p1 p2 : Nat} (v : Char)
    (h : ¬(p1 = r ∧ p2 = c)) : set_cell b r c v p1 p2 = b p1 p2 := by
  rw [set_cell]
  split
  · rename_i hc
    exact absurd hc h
  · rfl

theorem set_cell_self (b : Board) (r c : Nat) (v : Char) :
    set_cell b r c v r c = v := by
  rw [set_cell]
  split
  · rfl
  · rename_i hc
    exact absurd ⟨rfl, rfl⟩ hc

/-- Writing a cell shifts the board hash by the old and new Zobrist
contributions of that cell. -/
theorem board_hash_set_cell (z : Zobrist) (b : Board) (r c : Nat) (v : Char)
    (hr : r < 7) (hc : c < 7) :
    board_hash z (set_cell b r c v)
      = board_hash z b ^^^ entry_hash z r c (b r c) ^^^ entry_hash z r c v := by
  rw [board_hash_eq_foldr, board_hash_eq_foldr,
    foldr_xor_update positions (cell_hash z b) (cell_hash z (set_cell b r c v)) (r, c)
      positions_nodup (mem_positions.mpr ⟨hr, hc⟩)
      (fun p hp hpq => by
        rw [cell_hash_eq, cell_hash_eq,
          set_cell_ne b v (fun hand => hpq (Prod.ext hand.1 hand.2))]),
    cell_hash_eq, cell_hash_eq, set_cell_self]

theorem entry_hash_empty (z : Zobrist) (r c : Nat) : entry_hash z r c '.' = 0 := rfl

/-- One capturing direction either leaves the state alone or removes an
in-range piece and XORs its constant out of the hash. -/
theorem capture_step_shape (targets : List Char) (z : Zobrist) (row col : Nat)
    (s : GameState) (d : Int × Int)
    (ht : ∀ ch, targets.contains ch = true → piece_index ch ≠ none) :
    capture_step targets z row col s d = s ∨
    ∃ er ec : Nat, er < 7 ∧ ec < 7 ∧
      capture_step targets z row col s d
        = { s with board := set_cell s.board er ec '.',
                   hash := s.hash ^^^ entry_hash z er ec (s.board er ec) } := by
  rw [capture_step]
  dsimp only
  split_ifs with h1 h2 h3 h4 h5 h6
  · exact Or.inl rfl
  · exact Or.inl rfl
  · -- king capture branch
    refine Or.inr ⟨((row : Int) + d.1).toNat, ((col : Int) + d.2).toNat, ?_, ?_, ?_⟩
    · simp only [Bool.or_eq_true, decide_eq_true_eq, not_or] at h1
      omega
    · simp only [Bool.or_eq_true, decide_eq_true_eq, not_or] at h1
      omega
    · rw [beq_iff_eq] at h3
      rw [h3]
      rfl
  · exact Or.inl rfl
  · exact Or.inl rfl
  · exact Or.inl rfl
  · -- standard capture branch
    refine Or.inr ⟨((row : Int) + d.1).toNat, ((col : Int) + d.2).toNat, ?_, ?_, ?_⟩
    · simp only [Bool.or_eq_true, decide_eq_true_eq, not_or] at h1
      omega
    · simp only [Bool.or_eq_true, decide_eq_true_eq, not_or] at h1
      omega
    · rw [Bool.not_eq_true', Bool.not_eq_false] at h2
      have hpi := ht _ h2
      rcases hpi' : piece_index (s.board ((row : Int) + d.1).toNat ((col : Int) + d.2).toNat) with _ | i
      · exact absurd hpi' hpi
      · simp only [entry_hash, hpi', Option.getD_some]

theorem xor_cancel_mid (a b c d : Nat) : a ^^^ d ^^^ b ^^^ c ^^^ d = a ^^^ c ^^^ b :=
  calc a ^^^ d ^^^ b ^^^ c ^^^ d = (a ^^^ c ^^^ b) ^^^ (d ^^^ d) := by ac_rfl
  _ = a ^^^ c ^^^ b := by rw [Nat.xor_self, Nat.xor_zero]

theorem targets_black (ch : Char) (h : (['W', 'K'] : List Char).contains ch = true) :
    piece_index ch ≠ none := by
  have hm := List.mem_of_elem_eq_true h
  rcases List.mem_cons.mp hm with rfl | hm'
  · simp [piece_index]
  · rcases List.mem_cons.mp hm' with rfl | hm''
    · simp [piece_index]
    · cases hm''

theorem targets_white (ch : Char) (h : (['B'] : List Char).contains ch = true) :
    piece_index ch ≠ none := by
  have hm := List.mem_of_elem_eq_true h
  rcases List.mem_cons.mp hm with rfl | hm'
  · simp [piece_index]
  · cases hm'

theorem fold_capture_rel (targets : List Char) (z : Zobrist) (row col : Nat) (X : Nat)
    (ht : ∀ ch, targets.contains ch = true → piece_index ch ≠ none) :
    ∀ (l : List (Int × Int)) (s : GameState),
      s.hash = board_hash z s.board ^^^ X →
      (l.foldl (capture_step targets z row col) s).hash
          = board_hash z (l.foldl (capture_step targets z row col) s).board ^^^ X
        ∧ (l.foldl (capture_step targets z row col) s).player = s.player := by
  intro l
  induction l with
  | nil => exact fun s hs => ⟨hs, rfl⟩
  | cons d t ih =>
    intro s hs
    rw [List.foldl_cons]
    rcases capture_step_shape targets z row col s d ht with heq | ⟨er, ec, her, hec, heq⟩
    · rw [heq]; exact ih s hs
    · rw [heq]
      have hs' : ({ s with
              board := set_cell s.board er ec '.',
              hash := s.hash ^^^ entry_hash z er ec (s.board er ec) } : GameState).hash
          = board_hash z ({ s with
              board := set_cell s.board er ec '.',
              hash := s.hash ^^^ entry_hash z er ec (s.board er ec) } : GameState).board
            ^^^ X := by
        dsimp only
        rw [board_hash_set_cell z s.board er ec '.' her hec, entry_hash_empty,
          Nat.xor_zero, hs]
        ac_rfl
      obtain ⟨ha, hb⟩ := ih _ hs'
      exact ⟨ha, hb⟩

theorem apply_captures_rel (z : Zobrist) (s : GameState) (row col : Nat) (X : Nat)
    (h : s.hash = board_hash z s.board ^^^ X) :
    (apply_captures s row col z).hash
        = board_hash z (apply_captures s row col z).board ^^^ X
      ∧ (apply_captures s row col z).player = s.player := by
  rw [apply_captures]
  split
  · exact ⟨h, rfl⟩
  · split
    · exact fold_capture_rel _ z row col X targets_black directions s h
    · exact fold_capture_rel _ z row col X targets_white directions s h
    · exact fold_capture_rel _ z row col X targets_white directions s h
    · exact ⟨h, rfl⟩

theorem apply_captures_invariant (z : Zobrist) (s : GameState) (row col : Nat)
    (h : s.hash = board_hash z s.board ^^^ (if s.player = 'B' then z.black_to_move else 0)) :
    hash_invariant (apply_captures s row col z) z := by
  have hrel := apply_captures_rel z s row col _ h
  rw [hash_invariant, hrel.2]
  exact hrel.1

theorem capture_step_player (targets : List Char) (z : Zobrist) (row col : Nat)
    (s : GameState) (d : Int × Int) :
    (capture_step targets z row col s d).player = s.player := by
  rw [capture_step]
  dsimp only
  split_ifs <;> rfl

theorem apply_captures_player (z : Zobrist) (s : GameState) (row col : Nat) :
    (apply_captures s row col z).player = s.player := by
  have hfold : ∀ (targets : List Char) (l : List (Int × Int)) (t : GameState),
      (l.foldl (capture_step targets z row col) t).player = t.player := by
    intro targets l
    induction l with
    | nil => exact fun t => rfl
    | cons d tl ih =>
      intro t
      rw [List.foldl_cons, ih, capture_step_player]
  rw [apply_captures]
  split
  · rfl
  · split
    · exact hfold _ directions s
    · exact hfold _ directions s
    · exact hfold _ directions s
    · rfl

/-- The facts about a move that `is_legal_move` guarantees and the hash
invariant needs. -/
theorem legal_move_facts {s : GameState} {z : Zobrist} {sr sc er ec : Nat}
    (h : is_legal_move s (sr, sc, er, ec) z = true) :
    ¬(sr = er ∧ sc = ec) ∧ sr ≤ 6 ∧ sc ≤ 6 ∧ er ≤ 6 ∧ ec ≤ 6
      ∧ s.board sr sc ≠ '.' ∧ s.board er ec = '.'
      ∧ (s.player = 'B' → s.board sr sc = 'B')
      ∧ (s.player = 'W' → s.board sr sc = 'W' ∨ s.board sr sc = 'K') := by
  rw [is_legal_move] at h
  dsimp only at h
  split at h
  · simp at h
  · rename_i h1
    split at h
    · simp at h
    · rename_i h2
      split at h
      · simp at h
      · rename_i h3
        split at h
        · simp at h
        · rename_i h4
          split at h
          · simp at h
          · rename_i h5
            split at h
            · simp at h
            · rename_i h6
              refine ⟨?_, ?_, ?_, ?_, ?_, ?_, ?_, ?_, ?_⟩
              · simpa using h1
              · simp only [Bool.or_eq_true, decide_eq_true_eq, not_or] at h2
                omega
              · simp only [Bool.or_eq_true, decide_eq_true_eq, not_or] at h2
                omega
              · simp only [Bool.or_eq_true, decide_eq_true_eq, not_or] at h2
                omega
              · simp only [Bool.or_eq_true, decide_eq_true_eq, not_or] at h2
                omega
              · simpa using h3
              · simpa using h4
              · intro hpl
                simp only [Bool.and_eq_true, beq_iff_eq, bne_iff_ne, ne_eq, not_and,
                  not_not] at h5
                exact h5 hpl
              · intro hpl
                simp only [Bool.and_eq_true, beq_iff_eq, bne_iff_ne, ne_eq, not_and,
                  not_or, not_not] at h6
                tauto

theorem move_piece_invariant (z : Zobrist) (s : GameState) (sr sc er ec : Nat)
    (hlegal : is_legal_move s (sr, sc, er, ec) z = true)
    (hp : s.player = 'B' ∨ s.player = 'W')
    (hinv : hash_invariant s z) :
    hash_invariant (move_piece s (sr, sc, er, ec) z) z
      ∧ ((move_piece s (sr, sc, er, ec) z).player = 'B'
          ∨ (move_piece s (sr, sc, er, ec) z).player = 'W') := by
  obtain ⟨hne, hsr, hsc, her, hec, hsrc, hdst, hB, hW⟩ := legal_move_facts hlegal
  have hpiece : ∃ i, piece_index (s.board sr sc) = some i := by
    rcases hp with hpl | hpl
    · exact ⟨0, by rw [hB hpl]; rfl⟩
    · rcases hW hpl with hK | hK
      · exact ⟨1, by rw [hK]; rfl⟩
      · exact ⟨2, by rw [hK]; rfl⟩
  obtain ⟨pi, hpi⟩ := hpiece
  rw [move_piece]
  simp only [hpi, Option.getD_some]
  constructor
  · apply apply_captures_invariant
    dsimp only
    have hb1 : board_hash z (set_cell s.board er ec (s.board sr sc))
        = board_hash z s.board ^^^ z.table er ec pi := by
      rw [board_hash_set_cell z s.board er ec _ (by omega) (by omega), hdst,
        entry_hash_empty, Nat.xor_zero]
      simp only [entry_hash, hpi]
    have hb2 : board_hash z (set_cell (set_cell s.board er ec (s.board sr sc)) sr sc '.')
        = board_hash z s.board ^^^ z.table er ec pi ^^^ z.table sr sc pi := by
      rw [board_hash_set_cell z _ sr sc _ (by omega) (by omega), hb1,
        entry_hash_empty, Nat.xor_zero, set_cell_ne s.board _ hne]
      simp only [entry_hash, hpi]
    rw [hb2]
    rw [hash_invariant] at hinv
    by_cases hpl : s.player = 'B'
    · rw [hinv, if_pos hpl]
      have hflip : (if s.player == 'B' then 'W' else 'B') = 'W' := by
        simp [hpl]
      rw [hflip]
      rw [if_neg (by decide : ¬('W' = 'B')), Nat.xor_zero]
      exact xor_cancel_mid (board_hash z s.board) (z.table sr sc pi) (z.table er ec pi)
        z.black_to_move
    · rw [hinv, if_neg hpl, Nat.xor_zero]
      have hflip : (if s.player == 'B' then 'W' else 'B') = 'B' := by
        simp [hpl]
      rw [hflip]
      rw [if_pos rfl]
      ac_rfl
  · rw [apply_captures_player]
    dsimp only
    by_cases hpl : s.player = 'B' <;> simp [hpl]

/-- Claim C2: in every state reachable from the starting position by
legal moves, the hash equals the XOR of the piece constants of the
non-empty cells, XOR the side-to-move constant exactly when black is to
move; `GameState.new` establishes this and `move_piece` (captures
included) preserves it. -/
theorem C2_hash_invariant_reachable (z : Zobrist) (s : GameState) (h : Reachable z s) :
    hash_invariant s z := by
  have main : hash_invariant s z ∧ (s.player = 'B' ∨ s.player = 'W') := by
    induction h with
    | base =>
      constructor
      · rw [hash_invariant, GameState.new]
        simp
      · exact Or.inl rfl
    | step hr hlegal ih =>
      rename_i s' c'
      obtain ⟨csr, csc, cer, cec⟩ := c'
      exact move_piece_invariant z s' csr csc cer cec hlegal ih.2 ih.1
  exact main.1

theorem C2_hash_invariant_reachable_witness :
    hash_invariant (move_piece (GameState.new z_test) (3, 5, 2, 5) z_test) z_test :=
  C2_hash_invariant_reachable z_test _
    (Reachable.step Reachable.base (by decide))

/-!
### Claim C1: hash fidelity of `next_hash` (failing input)

A black move that captures the king: `move_piece` removes the king and
XORs its constant out of the hash, while `next_hash` simulates captures
of non-king victims only (the enemy of a black mover is `'W'` alone),
so the two hashes differ by the king's Zobrist constant.
-/

/-- Failing input for claim C1: black to move, king at (5,3) flanked by
an attacker at (4,3); the move (6,0)→(6,3) closes the N-S axis and
captures the king. -/
def C1_state : GameState :=
  let b : Board := fun r c =>
    if r = 4 ∧ c = 3 then 'B'
    else if r = 5 ∧ c = 3 then 'K'
    else if r = 6 ∧ c = 0 then 'B'
    else '.'
  let h := board_hash z_test b ^^^ z_test.black_to_move
  { board := b, player := 'B', hash := h, king_pos := (5, 3), history := [h] }

/-- Claim C1 (code bug): the move (6,0)→(6,3) is legal in `C1_state`
and captures the king, and the hash of the state `move_piece` produces
differs from `next_hash` (by the king's constant): hash fidelity fails
on king-capturing moves. -/
theorem C1_next_hash_king_capture_bug :
    is_legal_move C1_state (6, 0, 6, 3) z_test = true
      ∧ (move_piece C1_state (6, 0, 6, 3) z_test).board 5 3 = '.'
      ∧ (move_piece C1_state (6, 0, 6, 3) z_test).hash
          ≠ next_hash C1_state (6, 0, 6, 3) z_test
      ∧ (move_piece C1_state (6, 0, 6, 3) z_test).hash
          = next_hash C1_state (6, 0, 6, 3) z_test ^^^ z_test.table 5 3 2 := by
  decide

/-!
### Claim C6: the repetition history (failing input)

`move_piece` pushes the hash into the history after the move and the
side-to-move flip but before `apply_captures`, so on a capturing ply
the recorded entry is not the hash of the resulting state.
-/

def C6_s0 : GameState := GameState.new z_test
def C6_s1 : GameState := move_piece C6_s0 (3, 5, 2, 5) z_test
def C6_s2 : GameState := move_piece C6_s1 (4, 3, 4, 5) z_test
def C6_s3 : GameState := move_piece C6_s2 (2, 5, 2, 4) z_test
def C6_s4 : GameState := move_piece C6_s3 (4, 5, 5, 5) z_test
def C6_s5 : GameState := move_piece C6_s4 (3, 0, 2, 0) z_test
def C6_s6 : GameState := move_piece C6_s5 (5, 5, 5, 6) z_test
def C6_s7 : GameState := move_piece C6_s6 (2, 0, 2, 2) z_test

/-- Claim C6 (code bug): a legal 7-ply game from the starting position
whose last ply captures the white pawn at (2,3); after it,
`history[7]` is not the hash of the state after ply 7 — it misses the
capture removal (it differs from the state hash by the victim's
constant), contradicting the claimed invariant. -/
theorem C6_history_misses_captures_bug :
    (is_legal_move C6_s0 (3, 5, 2, 5) z_test = true
      ∧ is_legal_move C6_s1 (4, 3, 4, 5) z_test = true
      ∧ is_legal_move C6_s2 (2, 5, 2, 4) z_test = true
      ∧ is_legal_move C6_s3 (4, 5, 5, 5) z_test = true
      ∧ is_legal_move C6_s4 (3, 0, 2, 0) z_test = true
      ∧ is_legal_move C6_s5 (5, 5, 5, 6) z_test = true
      ∧ is_legal_move C6_s6 (2, 0, 2, 2) z_test = true)
    ∧ C6_s7.history.length = 8
    ∧ C6_s7.board 2 3 = '.'
    ∧ C6_s7.history.getD 7 0 ≠ C6_s7.hash
    ∧ C6_s7.history.getD 7 0 = C6_s7.hash ^^^ z_test.table 2 3 1 := by
  decide

/-- Claim C8: `MCTS::new` fails (the modelled panic) exactly when the
spec's bit-layout bound `2 ^ VISITS_BITS > 2 ^ GEN_BITS * iterations`
is violated, for every seed and generation range; the check happens at
construction. -/
theorem C8_overflow_guard (seed iterations_per_move generation_range : Nat) :
    (MCTS.new seed iterations_per_move generation_range).isNone = true
      ↔ ¬(2 ^ GEN_BITS * iterations_per_move < 2 ^ VISITS_BITS) := by
  have hmi : MAX_ITER = 1 := by norm_num [MAX_ITER, VISITS_BITS, GEN_BITS]
  have hg : GEN_BITS = VISITS_BITS := rfl
  rw [MCTS.new, hmi, hg]
  by_cases hge : iterations_per_move ≥ 1
  · rw [if_pos hge]
    simp only [Option.isNone_none, true_iff, not_lt]
    calc 2 ^ VISITS_BITS = 2 ^ VISITS_BITS * 1 := by rw [Nat.mul_one]
    _ ≤ 2 ^ VISITS_BITS * iterations_per_move := Nat.mul_le_mul_left _ hge
  · rw [if_neg hge]
    have h0 : iterations_per_move = 0 := by omega
    subst h0
    simp only [Option.isNone_some, Nat.mul_zero]
    constructor
    · intro h
      exact absurd h (by decide)
    · intro h
      exact absurd (Nat.two_pow_pos _) h

/-- Claim C10: the bucket index `hash AND (2^24 - 1)` is always within
the `2^24` buckets `TT::new` allocates, so the unchecked access of
`TT::get_bucket` is in bounds and the lookup is total. -/
theorem C10_get_bucket_in_bounds (hash : Nat) :
    get_bucket_index hash < TT.new.buckets.size
      ∧ (TT.new.get_bucket hash).isSome = true := by
  have hsize : TT.new.buckets.size = TT_DIM := by
    rw [TT.new]
    exact Array.size_mkArray _ _
  have hidx : get_bucket_index hash < TT_DIM := by
    rw [get_bucket_index, TT_DIM_MINUS_1]
    have hle : hash &&& (TT_DIM - 1) ≤ TT_DIM - 1 := Nat.and_le_right
    have hpos : 0 < TT_DIM := by rw [TT_DIM]; exact Nat.two_pow_pos _
    omega
  have hidx' : get_bucket_index hash < TT.new.buckets.size := by rw [hsize]; exact hidx
  refine ⟨hidx', ?_⟩
  rw [TT.get_bucket, Array.getElem?_eq_getElem hidx', Option.isSome_some]

/-!
### Claim C9: the signed wins field
-/

theorem set_wins_raw (data : Nat) (w : Int) :
    ((set_n_wins data w) &&& WINS_MASK) >>> WINS_OFFSET = to_u128 w % 2 ^ 30 := by
  have hoff : WINS_OFFSET = 98 := by
    norm_num [WINS_OFFSET, VISITS_OFFSET, GEN_OFFSET, HASH_OFFSET, HASH_BITS, GEN_BITS,
      VISITS_BITS]
  have hmask : WINS_MASK = (2 ^ 30 - 1) <<< 98 := by
    norm_num [WINS_MASK, WINS_BITS, hoff]
  simp only [set_n_wins, u128_not, hmask, hoff]
  apply Nat.eq_of_testBit_eq
  intro i
  simp only [Nat.testBit_shiftRight, Nat.testBit_and, Nat.testBit_or, Nat.testBit_xor,
    Nat.testBit_shiftLeft, Nat.testBit_mod_two_pow, Nat.testBit_two_pow_sub_one,
    Nat.add_sub_cancel_left]
  by_cases hi : i < 30
  · have h1 : decide (i < 30) = true := decide_eq_true hi
    have h2 : decide (98 + i < 128) = true := decide_eq_true (by omega)
    have h3 : decide (98 + i ≥ 98) = true := decide_eq_true (by omega)
    simp [h1, h2, h3]
  · have h1 : decide (i < 30) = false := decide_eq_false hi
    simp [h1]

set_option maxRecDepth 8192 in
theorem to_u128_mod_val (w : Int) (hlo : -(2 : Int) ^ 29 ≤ w) (hhi : w < 2 ^ 29) :
    (to_u128 w % 2 ^ 30 : Nat) = (if 0 ≤ w then w.toNat else (w + 2 ^ 30).toNat) := by
  rw [to_u128]
  by_cases hpos : 0 ≤ w
  · rw [if_pos hpos]
    omega
  · rw [if_neg hpos]
    omega

/-- The 30-bit roundtrip: writing an in-range signed value and reading
it back through the arithmetic-shift sign extension recovers it,
whatever the other 98 bits of the entry hold. -/
theorem get_n_wins_set (data : Nat) (w : Int)
    (hlo : -(2 : Int) ^ 29 ≤ w) (hhi : w < 2 ^ 29) :
    get_n_wins (set_n_wins data w) = w := by
  have h34 : 64 - WINS_BITS = 34 := rfl
  rw [get_n_wins, h34, set_wins_raw data w, to_u128_mod_val w hlo hhi]
  by_cases hpos : 0 ≤ w
  · rw [if_pos hpos]
    have hb : w.toNat < 2 ^ 29 := by omega
    rw [Nat.shiftLeft_eq]
    have hmod : w.toNat * 2 ^ 34 % 2 ^ 64 = w.toNat * 2 ^ 34 :=
      Nat.mod_eq_of_lt (by omega)
    rw [hmod, to_i64, if_pos (show (w.toNat * 2 ^ 34 : Nat) < 2 ^ 63 by omega), sar64]
    push_cast
    rw [Int.toNat_of_nonneg hpos]
    exact Int.mul_fdiv_cancel w (by norm_num)
  · rw [if_neg hpos]
    have hge : (2 : Nat) ^ 29 ≤ (w + 2 ^ 30).toNat := by omega
    have hlt : (w + 2 ^ 30).toNat < 2 ^ 30 := by omega
    rw [Nat.shiftLeft_eq]
    have hmod : (w + 2 ^ 30).toNat * 2 ^ 34 % 2 ^ 64 = (w + 2 ^ 30).toNat * 2 ^ 34 :=
      Nat.mod_eq_of_lt (by omega)
    have hcond : ¬((w + 2 ^ 30).toNat * 2 ^ 34 < 2 ^ 63) := by omega
    rw [hmod, to_i64, if_neg hcond, sar64]
    push_cast
    rw [Int.toNat_of_nonneg (show (0 : Int) ≤ w + 1073741824 by omega)]
    have hshift : (w + 1073741824) * 17179869184 - 18446744073709551616
        = w * 17179869184 := by ring
    rw [hshift]
    exact Int.mul_fdiv_cancel w (by norm_num)

/-- Claim C9: for every prior entry contents and every w in
[-2^29, 2^29), `set_n_wins` then `get_n_wins` returns exactly w, and
`add_n_wins` adds d to the stored value whenever the sum stays in that
range. -/
theorem C9_wins_roundtrip (data e : Nat) (w d : Int)
    (hw : -(2 : Int) ^ 29 ≤ w ∧ w < 2 ^ 29)
    (hd : -(2 : Int) ^ 29 ≤ get_n_wins e + d ∧ get_n_wins e + d < 2 ^ 29) :
    get_n_wins (set_n_wins data w) = w
      ∧ get_n_wins (add_n_wins e d) = get_n_wins e + d := by
  refine ⟨get_n_wins_set data w hw.1 hw.2, ?_⟩
  rw [add_n_wins]
  exact get_n_wins_set e (get_n_wins e + d) hd.1 hd.2

theorem C9_wins_roundtrip_witness :
    ((-(2 : Int) ^ 29 ≤ (-5 : Int) ∧ (-5 : Int) < 2 ^ 29)
      ∧ (-(2 : Int) ^ 29 ≤ get_n_wins 777 + 9 ∧ get_n_wins 777 + 9 < 2 ^ 29))
    ∧ (get_n_wins (set_n_wins 12345 (-5)) = -5
        ∧ get_n_wins (add_n_wins 777 9) = get_n_wins 777 + 9) :=
  ⟨⟨⟨by decide, by decide⟩, ⟨by decide, by decide⟩⟩,
    C9_wins_roundtrip 12345 777 (-5) 9 ⟨by decide, by decide⟩ ⟨by decide, by decide⟩⟩

/-!
### Claim C7: the root-move selection
-/

/-- Cached visit count of a successor (0 when it has no TT entry). -/
def child_visits (root : GameState) (z : Zobrist) (lookup : Nat → Option Nat)
    (m : Coords) : Nat :=
  match lookup (next_hash root m z) with
  | some entry => get_n_visits entry
  | none => 0

/-- The filter the code effectively applies at the root (the amended
claim): the successor is cached with a positive visit count, and its
state is not terminal with a winner other than the root's player —
terminal draws are excluded along with losses. -/
def amended_qualifies (root : GameState) (z : Zobrist) (lookup : Nat → Option Nat)
    (m : Coords) : Bool :=
  match lookup (next_hash root m z) with
  | some entry =>
    0 < get_n_visits entry
      && (match check_game_over (move_piece root m z) z with
          | some winner => root.player == winner
          | none => true)
  | none => false

/-- First-improvement argmax by visit count over a move list. -/
def pick_most_visited (root : GameState) (z : Zobrist) (lookup : Nat → Option Nat)
    (acc : Nat × Option Coords) (m : Coords) : Nat × Option Coords :=
  if child_visits root z lookup m > acc.1 then (child_visits root z lookup m, some m)
  else acc

/-- The amended root-move rule: among the qualifying moves, the first
one with the highest visit count; `none` (random fallback) when no
move qualifies. -/
def amended_choice (root : GameState) (z : Zobrist) (lookup : Nat → Option Nat) :
    Option Coords :=
  (((get_legal_moves root z).filter (amended_qualifies root z lookup)).foldl
    (pick_most_visited root z lookup) (0, none)).2

theorem root_step_eq (root : GameState) (z : Zobrist) (lookup : Nat → Option Nat)
    (acc : Nat × Option Coords) (m : Coords) :
    root_step root z lookup acc m
      = if amended_qualifies root z lookup m = true
        then pick_most_visited root z lookup acc m
        else acc := by
  rw [root_step, amended_qualifies, pick_most_visited, child_visits]
  cases hl : lookup (next_hash root m z) with
  | none => simp
  | some entry =>
    dsimp only
    cases hg : check_game_over (move_piece root m z) z with
    | none =>
      dsimp only
      by_cases hv : get_n_visits entry > acc.1
      · have hq : (decide (0 < get_n_visits entry) && true) = true := by
          rw [Bool.and_true]
          exact decide_eq_true (by omega)
        rw [if_pos hv, if_pos hq]
      · rw [if_neg hv]
        by_cases hq : (decide (0 < get_n_visits entry) && true) = true
        · rw [if_pos hq]
        · rw [if_neg hq]
    | some winner =>
      dsimp only
      have hbne : (!(root.player != winner)) = (root.player == winner) := by
        rw [bne]
        exact Bool.not_not _
      by_cases hv : get_n_visits entry > acc.1
      · rw [if_pos hv, hbne]
        by_cases hw : (root.player == winner) = true
        · have hq : (decide (0 < get_n_visits entry) && (root.player == winner)) = true := by
            rw [hw, Bool.and_true]
            exact decide_eq_true (by omega)
          rw [if_pos hw, if_pos hq, if_pos hv]
        · have hq : ¬(decide (0 < get_n_visits entry) && (root.player == winner)) = true := by
            rw [Bool.and_eq_true, not_and]
            exact fun _ => hw
          rw [if_neg hw, if_neg hq]
      · rw [if_neg hv]
        by_cases hq : (decide (0 < get_n_visits entry) && (root.player == winner)) = true
        · rw [if_pos hq, if_neg hv]
        · rw [if_neg hq]

theorem foldl_rootstep_filter (root : GameState) (z : Zobrist) (lookup : Nat → Option Nat) :
    ∀ (l : List Coords) (acc : Nat × Option Coords),
      l.foldl (root_step root z lookup) acc
        = (l.filter (amended_qualifies root z lookup)).foldl
            (pick_most_visited root z lookup) acc := by
  intro l
  induction l with
  | nil => intro acc; rfl
  | cons m t ih =>
    intro acc
    rw [List.foldl_cons, root_step_eq, List.filter_cons]
    by_cases hq : amended_qualifies root z lookup m = true
    · rw [if_pos hq, if_pos hq, List.foldl_cons]
      exact ih (pick_most_visited root z lookup acc m)
    · rw [if_neg hq, if_neg hq]
      exact ih acc

/-- Claim C7 (amended): after the search, `get_move` picks, among the
legal root moves whose successor is TT-cached with positive visits and
is not terminal with a winner other than the root's player (terminal
draws are skipped along with losses), the first move with the highest
visit count; if no move qualifies it falls through to a uniformly
random legal move (`none`). -/
theorem C7_get_move_choice_amended (root : GameState) (z : Zobrist)
    (lookup : Nat → Option Nat) :
    get_move_choice root z lookup = amended_choice root z lookup := by
  rw [get_move_choice, amended_choice, foldl_rootstep_filter]

/-- The claim's root-move filter as stated: a successor is skipped only
when it is terminal with the opponent of the root's player as winner
(terminal draws and wins for the root's player remain eligible). -/
def claimed_qualifies (root : GameState) (z : Zobrist) (lookup : Nat → Option Nat)
    (m : Coords) : Bool :=
  match lookup (next_hash root m z) with
  | some entry =>
    0 < get_n_visits entry
      && (match check_game_over (move_piece root m z) z with
          | some winner => !(winner == opponent root.player)
          | none => true)
  | none => false

/-- The root-move rule as the claim states it. -/
def claimed_choice (root : GameState) (z : Zobrist) (lookup : Nat → Option Nat) :
    Option Coords :=
  (((get_legal_moves root z).filter (claimed_qualifies root z lookup)).foldl
    (pick_most_visited root z lookup) (0, none)).2

/-- Counterexample root for claim C7: black to move with one attacker
at (0,3) and the bare king at (5,5); after (0,3)→(0,4) the material is
1 attacker and 0 defenders, a terminal draw. -/
def C7_root : GameState :=
  let b : Board := fun r c =>
    if r = 0 ∧ c = 3 then 'B'
    else if r = 5 ∧ c = 5 then 'K'
    else '.'
  let h := board_hash z_test b ^^^ z_test.black_to_move
  { board := b, player := 'B', hash := h, king_pos := (5, 5), history := [h] }

/-- A table in which only the successor under (0,3)→(0,4) is cached,
with 3 visits. -/
def C7_lookup : Nat → Option Nat :=
  fun h => if h == next_hash C7_root (0, 3, 0, 4) z_test then some (3 <<< 69) else none

/-- Claim C7 (counterexample): the successor of the legal move
(0,3)→(0,4) is a terminal draw — not a loss for the root's player —
and is the only cached child (3 visits), yet `get_move` returns the
random fallback instead of picking it as the claim requires: the code
skips terminal draws. -/
theorem C7_get_move_draw_counterexample :
    (0, 3, 0, 4) ∈ get_legal_moves C7_root z_test
      ∧ check_game_over (move_piece C7_root (0, 3, 0, 4) z_test) z_test = some 'D'
      ∧ get_n_visits (3 <<< 69) = 3
      ∧ claimed_choice C7_root z_test C7_lookup = some (0, 3, 0, 4)
      ∧ get_move_choice C7_root z_test C7_lookup = none := by
  decide

/-!
### Claim C5: the `add_entry` insert policy
-/

/-- The first entry (with its offset) that ends the scan of
`add_entry`: a matching tag or an empty tag. -/
def first_stop (hash : Nat) : List Nat → Option (Nat × Nat)
  | [] => none
  | e :: rest =>
    if hash_equals e hash || hash_equals e 0 then some (0, e)
    else (first_stop hash rest).map (fun x => (x.1 + 1, x.2))

/-- Running `(min_visits, min_index)` minimum over indexed entries,
strict comparison (first minimum wins). -/
def min_fold : List (Nat × Nat) → Nat × Nat → Nat × Nat
  | [], acc => acc
  | x :: l, acc =>
    min_fold l (if get_n_visits x.2 < acc.1 then (get_n_visits x.2, x.1) else acc)

/-- The amended insert policy: scan the entries in index order and stop
at the first matching-or-empty entry (a match is a no-op, an empty
entry is claimed); if the scan completes, overwrite the first
least-visited stale entry, or, with no stale entry, the first
least-visited entry of the bucket. -/
def add_entry_amended (bucket : List Nat) (hash generation bound : Nat) : List Nat :=
  match first_stop hash bucket with
  | some ie =>
    if hash_equals ie.2 hash then bucket
    else bucket.set ie.1 (write_fresh ie.2 hash generation)
  | none =>
    if (bucket.enum.filter (fun x => get_generation x.2 < bound)).isEmpty then
      bucket.set (min_fold bucket.enum (USIZE_MAX, USIZE_MAX)).2
        (write_fresh (bucket.getD (min_fold bucket.enum (USIZE_MAX, USIZE_MAX)).2 0)
          hash generation)
    else
      bucket.set
        (min_fold (bucket.enum.filter (fun x => get_generation x.2 < bound))
          (USIZE_MAX, USIZE_MAX)).2
        (write_fresh
          (bucket.getD
            (min_fold (bucket.enum.filter (fun x => get_generation x.2 < bound))
              (USIZE_MAX, USIZE_MAX)).2 0)
          hash generation)

theorem least_visited_aux_eq_min_fold :
    ∀ (l : List Nat) (idx minv mini : Nat),
      least_visited_aux l idx minv mini = min_fold (List.enumFrom idx l) (minv, mini) := by
  intro l
  induction l with
  | nil => intro idx minv mini; rfl
  | cons e t ih =>
    intro idx minv mini
    rw [least_visited_aux, List.enumFrom_cons, min_fold]
    dsimp only
    by_cases hv : get_n_visits e < minv
    · rw [if_pos hv, if_pos hv, ih]
    · rw [if_neg hv, if_neg hv, ih]

theorem min_fold_fst_le (l : List (Nat × Nat)) (acc : Nat × Nat) :
    (min_fold l acc).1 ≤ acc.1 := by
  induction l generalizing acc with
  | nil => exact Nat.le_refl _
  | cons x t ih =>
    rw [min_fold]
    by_cases hv : get_n_visits x.2 < acc.1
    · rw [if_pos hv]
      have := ih ((get_n_visits x.2, x.1))
      omega
    · rw [if_neg hv]
      exact ih acc

theorem min_fold_fst_le_mem (l : List (Nat × Nat)) (acc : Nat × Nat) (x : Nat × Nat)
    (hx : x ∈ l) : (min_fold l acc).1 ≤ get_n_visits x.2 := by
  induction l generalizing acc with
  | nil => cases hx
  | cons y t ih =>
    rw [min_fold]
    rcases List.mem_cons.mp hx with rfl | hx'
    · by_cases hv : get_n_visits x.2 < acc.1
      · rw [if_pos hv]
        have := min_fold_fst_le t (get_n_visits x.2, x.1)
        omega
      · rw [if_neg hv]
        have := min_fold_fst_le t acc
        omega
    · by_cases hv : get_n_visits y.2 < acc.1
      · rw [if_pos hv]
        exact ih _ hx'
      · rw [if_neg hv]
        exact ih acc hx' 

theorem get_n_visits_lt_usize (data : Nat) : get_n_visits data < USIZE_MAX := by
  have h1 : data &&& VISITS_MASK ≤ VISITS_MASK := Nat.and_le_right
  have h2 : get_n_visits data ≤ VISITS_MASK >>> VISITS_OFFSET := by
    rw [get_n_visits, Nat.shiftRight_eq_div_pow, Nat.shiftRight_eq_div_pow]
    exact Nat.div_le_div_right h1
  have h3 : VISITS_MASK >>> VISITS_OFFSET = 2 ^ 29 - 1 := by
    have hoff : VISITS_OFFSET = 69 := by
      norm_num [VISITS_OFFSET, GEN_OFFSET, HASH_OFFSET, HASH_BITS, GEN_BITS]
    rw [VISITS_MASK, hoff, Nat.shiftLeft_eq, Nat.shiftRight_eq_div_pow, VISITS_BITS]
    exact Nat.mul_div_cancel _ (Nat.two_pow_pos 69)
  rw [USIZE_MAX]
  omega

theorem add_entry_aux_spec (orig : List Nat) (hash generation bound : Nat) :
    ∀ (suf : List Nat) (idx minv mini : Nat),
      add_entry_aux orig hash generation bound suf idx minv mini
        = match first_stop hash suf with
          | some ie =>
            if hash_equals ie.2 hash then orig
            else orig.set (idx + ie.1) (write_fresh ie.2 hash generation)
          | none =>
            if (min_fold ((List.enumFrom idx suf).filter
                  (fun x => get_generation x.2 < bound)) (minv, mini)).1 == USIZE_MAX then
              orig.set (least_visited_aux orig 0 USIZE_MAX USIZE_MAX).2
                (write_fresh
                  (orig.getD (least_visited_aux orig 0 USIZE_MAX USIZE_MAX).2 0)
                  hash generation)
            else
              orig.set
                (min_fold ((List.enumFrom idx suf).filter
                  (fun x => get_generation x.2 < bound)) (minv, mini)).2
                (write_fresh
                  (orig.getD
                    (min_fold ((List.enumFrom idx suf).filter
                      (fun x => get_generation x.2 < bound)) (minv, mini)).2 0)
                  hash generation) := by
  intro suf
  induction suf with
  | nil =>
    intro idx minv mini
    rw [add_entry_aux]
    rfl
  | cons e rest ih =>
    intro idx minv mini
    rw [add_entry_aux]
    by_cases h1 : hash_equals e hash = true
    · rw [if_pos h1]
      have hc : (hash_equals e hash || hash_equals e 0) = true := by
        rw [h1, Bool.true_or]
      simp only [first_stop]
      rw [if_pos hc]
      dsimp only
      rw [if_pos h1]
    · rw [if_neg h1]
      by_cases h2 : hash_equals e 0 = true
      · rw [if_pos h2]
        have hc : (hash_equals e hash || hash_equals e 0) = true := by
          rw [h2, Bool.or_true]
        simp only [first_stop]
        rw [if_pos hc]
        dsimp only
        rw [if_neg h1, Nat.add_zero]
      · rw [if_neg h2]
        have hc : ¬(hash_equals e hash || hash_equals e 0) = true := by
          rw [Bool.or_eq_true]
          rintro (h | h)
          · exact h1 h
          · exact h2 h
        simp only [first_stop]
        rw [if_neg hc]
        cases hfs : first_stop hash rest with
        | some je =>
          simp only [Option.map_some']
          have harith : idx + 1 + je.1 = idx + (je.1 + 1) := by omega
          by_cases h3 : hash_equals je.2 hash = true
          · by_cases hg : get_generation e < bound
            · rw [if_pos hg]
              by_cases hv : get_n_visits e < minv
              · rw [if_pos hv, ih, hfs]
                dsimp only
                simp only [if_pos h3]
              · rw [if_neg hv, ih, hfs]
                dsimp only
                simp only [if_pos h3]
            · rw [if_neg hg, ih, hfs]
              dsimp only
              simp only [if_pos h3]
          · by_cases hg : get_generation e < bound
            · rw [if_pos hg]
              by_cases hv : get_n_visits e < minv
              · rw [if_pos hv, ih, hfs]
                dsimp only
                simp only [if_neg h3, harith]
              · rw [if_neg hv, ih, hfs]
                dsimp only
                simp only [if_neg h3, harith]
            · rw [if_neg hg, ih, hfs]
              dsimp only
              simp only [if_neg h3, harith]
        | none =>
          simp only [Option.map_none']
          rw [List.enumFrom_cons, List.filter_cons]
          dsimp only
          by_cases hg : get_generation e < bound
          · have hgd : decide (get_generation e < bound) = true := decide_eq_true hg
            rw [if_pos hg, if_pos hgd, min_fold]
            dsimp only
            by_cases hv : get_n_visits e < minv
            · rw [if_pos hv, if_pos hv, ih, hfs]
            · rw [if_neg hv, if_neg hv, ih, hfs]
          · have hgd : ¬decide (get_generation e < bound) = true := by
              rw [decide_eq_false hg]
              exact Bool.false_ne_true
            rw [if_neg hg, if_neg hgd, ih, hfs]

/-- Claim C5 (amended): `add_entry` follows the amended per-entry-scan
policy: the scan stops at the first entry that matches the hash (no-op)
or is empty (claimed and written with (tag, G, 0, 0)); when the scan
completes, the first least-visited stale entry — or, with no stale
entry, the first least-visited entry of the bucket — is overwritten. -/
theorem C5_add_entry_follows_amended_policy (bucket : List Nat)
    (hash generation bound : Nat) :
    add_entry bucket hash generation bound
      = add_entry_amended bucket hash generation bound := by
  rw [add_entry, add_entry_aux_spec, add_entry_amended]
  have henum : List.enumFrom 0 bucket = bucket.enum := rfl
  cases hfs : first_stop hash bucket with
  | some ie =>
    dsimp only
    rw [Nat.zero_add]
  | none =>
    dsimp only
    rw [henum]
    cases hstale : bucket.enum.filter (fun x => get_generation x.2 < bound) with
    | nil =>
      have hmax : ((min_fold ([] : List (Nat × Nat)) (USIZE_MAX, USIZE_MAX)).1
          == USIZE_MAX) = true := by rfl
      rw [if_pos hmax, if_pos (by rfl : (([] : List (Nat × Nat)).isEmpty) = true)]
      rw [least_visited_aux_eq_min_fold, henum]
    | cons x xs =>
      have hlt : (min_fold (x :: xs) (USIZE_MAX, USIZE_MAX)).1 < USIZE_MAX := by
        have h1 := min_fold_fst_le_mem (x :: xs) (USIZE_MAX, USIZE_MAX) x
          (List.mem_cons_self x xs)
        have h2 := get_n_visits_lt_usize x.2
        omega
      have hbeq : ¬((min_fold (x :: xs) (USIZE_MAX, USIZE_MAX)).1 == USIZE_MAX) = true := by
        rw [beq_iff_eq]
        omega
      rw [if_neg hbeq, if_neg (by simp : ¬((x :: xs).isEmpty = true))]

set_option maxRecDepth 16384 in
/-- Claim C5 (counterexample): with bucket `[empty, e1, empty, empty]`
where `e1`'s 40-bit tag (1) matches the hash `2^24`, the claim's step 1
demands a no-op; the single-pass code instead claims the empty entry 0
and writes it. -/
theorem C5_add_entry_counterexample :
    hash_equals 1 (2 ^ 24) = true
      ∧ add_entry [0, 1, 0, 0] (2 ^ 24) 5 0 ≠ [0, 1, 0, 0] := by
  decide
